import Mathlib

/-!
Verification of the filter and aggregation pipeline of the cafe dashboard
(streamlit_app_supabase.py), as a shallow embedding.

Modelling conventions, traced from the source:
* Tables are ordered lists of records, as produced by load_data (rows in the
  SELECT order).
* Nullable columns are Option-valued; a pandas NaN / NaT / None is modelled
  as Option.none.  The amount column is passed through pd.to_numeric with
  errors = coerce at load time, so unparsable amounts are none.
* Decimal amounts are modelled as exact rationals.
* Dates are modelled as day ordinals (Nat); comparisons against a missing
  date (NaT) are false, as in pandas.
* Code that raises a Python exception is modelled as returning none.
* Search terms are modelled as literal substrings.  The code calls
  pandas str.contains, whose pattern argument is a regular expression;
  for terms without regex metacharacters this is literal substring search,
  and all theorems below use such terms.
-/

namespace CafeDashboard

/-- A row of the companies table (SELECT * FROM companies ORDER BY name). -/
structure Company where
  id : Nat
  name : String
deriving DecidableEq

/-- A row of the expenses table as loaded by load_data.  The amount column
has been through pd.to_numeric, so it is a float column; missing values are
NaN, modelled as none. -/
structure Expense where
  id : Nat
  expense_number : Option String
  amount : Option ℚ
  amount_raw : Option String
  company_id : Option Nat
  status : Option String
  expense_date : Option Nat
  month : Nat
  year : Nat
deriving DecidableEq

/-- A row of the sales table (unique on (month, year) in the database). -/
structure Sale where
  month : Nat
  year : Nat
  amount : ℚ
deriving DecidableEq

/-- Decimal digits of the fractional part r / d, at most fuel digits.
Mirrors the decimal rendering of a float by Python str() on the simple
decimal values that occur in the data. -/
def ratDecimalDigits : Nat → Nat → Nat → String
  | _, _, 0 => ""
  | r, d, Nat.succ fuel =>
    if r = 0 then "" else toString (r * 10 / d) ++ ratDecimalDigits (r * 10 % d) d fuel

/-- String form of a float amount, as produced by astype(str) on a float
column: an integral value 100 renders as 100.0, and 50.5 as 50.5. -/
def floatStr (q : ℚ) : String :=
  let sign := if q < 0 then "-" else ""
  let n := q.num.natAbs
  let d := q.den
  let frac := ratDecimalDigits (n % d) d 17
  sign ++ toString (n / d) ++ "." ++ (if frac = "" then "0" else frac)

/-- astype(str) on an object column: a missing value (None) renders as the
string None. -/
def optStr : Option String → String
  | none => "None"
  | some s => s

/-- astype(str) on the float amount column: NaN renders as the string nan.
This is the load-bearing pandas behaviour behind the search filter: the
conversion happens before str.contains sees the value, so its na=False
argument never applies. -/
def amountStr : Option ℚ → String
  | none => "nan"
  | some q => floatStr q

/-- Lower-cased character list of a string (case-insensitive matching with
case=False; ASCII case folding suffices for the terms used here). -/
def lowerStr (s : String) : List Char :=
  s.data.map Char.toLower

/-- Case-insensitive substring test: needle occurs in hay.  Models
hay.str.contains(needle, case=False) for a metacharacter-free needle. -/
def strContainsCI (hay needle : String) : Bool :=
  (lowerStr hay).tails.any (fun t => (lowerStr needle).isPrefixOf t)

/-- The row mask of the search filter (lines 192-196): the term is searched
in the stringified expense_number, amount_raw and amount columns. -/
def matchesSearch (term : String) (r : Expense) : Bool :=
  strContainsCI (optStr r.expense_number) term ||
  strContainsCI (optStr r.amount_raw) term ||
  strContainsCI (amountStr r.amount) term

/-- The all sentinel of the company and status select boxes. -/
def allSentinel : String := "الكل"

/-- The paid status sentinel used for unpaid_total. -/
def paidSentinel : String := "تم الصرف"

/-- The date range mask (line 189): start <= expense_date <= end; a missing
date (NaT) compares false. -/
def dateOK (sd ed : Nat) (r : Expense) : Bool :=
  match r.expense_date with
  | none => false
  | some d => decide (sd ≤ d) && decide (d ≤ ed)

/-- One step of the filter pipeline of main (lines 187-204). -/
inductive FilterStep where
  | dateRange (sd ed : Nat)
  | search (term : String)
  | company (cs : List Company) (cname : String)
  | status (sname : String)
deriving DecidableEq

/-- Apply one filter step to the current filtered frame.  The company step
resolves the selected name with companies.loc[mask, id].iloc[0]; on a name
with no match the selection is empty and iloc[0] raises IndexError,
modelled as none. -/
def applyStep : FilterStep → List Expense → Option (List Expense)
  | FilterStep.dateRange sd ed, l => some (l.filter (dateOK sd ed))
  | FilterStep.search term, l =>
      if term = "" then some l else some (l.filter (matchesSearch term))
  | FilterStep.company cs cname, l =>
      if cname = allSentinel then some l
      else
        match cs.filter (fun c => decide (c.name = cname)) with
        | [] => none
        | c :: _ => some (l.filter (fun r => decide (r.company_id = some c.id)))
  | FilterStep.status sname, l =>
      if sname = allSentinel then some l
      else some (l.filter (fun r => decide (r.status = some sname)))

/-- Run a sequence of filter steps left to right; a raised exception in any
step aborts the rest. -/
def runSteps : List FilterStep → List Expense → Option (List Expense)
  | [], l => some l
  | s :: rest, l => (applyStep s l).bind (runSteps rest)

/-- The canonical order of the four filters in the source: date range,
search, company, status. -/
def canonicalSteps (sd ed : Nat) (term : String) (cs : List Company)
    (cname sname : String) : List FilterStep :=
  [FilterStep.dateRange sd ed, FilterStep.search term,
   FilterStep.company cs cname, FilterStep.status sname]

/-- total_spent (line 219): sum of amount over the filtered rows, missing
amounts excluded by skipna. -/
def totalSpent (l : List Expense) : ℚ :=
  (l.filterMap (fun r => r.amount)).sum

/-- unpaid_total (line 220): rows whose status differs from the paid
sentinel; a missing status also differs. -/
def unpaidTotal (l : List Expense) : ℚ :=
  ((l.filter (fun r => decide (r.status ≠ some paidSentinel))).filterMap
    (fun r => r.amount)).sum

/-- zfill(2) on the decimal rendering of the month. -/
def zfill2 (m : Nat) : String :=
  if m < 10 then "0" ++ toString m else toString m

/-- The period display key, year-month with the month zero padded. -/
def periodOfYM (y m : Nat) : String :=
  toString y ++ "-" ++ zfill2 m

/-- A row of the monthly summary (lines 226-227). -/
structure MonthRow where
  year : Nat
  month : Nat
  amount : ℚ
  period : String
deriving DecidableEq

/-- Stable insertion into a list sorted ascending by the strict order lt:
the new element goes after all existing elements not strictly above it. -/
def insertAsc {α : Type} (lt : α → α → Bool) (x : α) : List α → List α
  | [] => [x]
  | y :: ys => if lt y x then y :: insertAsc lt x ys else x :: y :: ys

/-- Stable ascending sort by the strict order lt (insertion sort).  A numpy
ascending argsort with the default kind runs plain stable insertion sort on
arrays of at most 16 elements and an unstable introsort above that cutoff,
so this model is exact for at most 16 elements and agrees with the program
only up to the permutation of tied elements beyond; every theorem below
that speaks about tie order therefore carries an at-most-16 bound, while
sortedness and permutation facts hold for any sort kind. -/
def sortAsc {α : Type} (lt : α → α → Bool) : List α → List α
  | [] => []
  | x :: xs => insertAsc lt x (sortAsc lt xs)

/-- Strict lexicographic order on (year, month) keys, the ascending group
order produced by groupby([year, month]). -/
def pairLt (a b : Nat × Nat) : Bool :=
  decide (a.1 < b.1) || (decide (a.1 = b.1) && decide (a.2 < b.2))

/-- The (year, month) group key of an expense row. -/
def monthKey (r : Expense) : Nat × Nat :=
  (r.year, r.month)

/-- Sum of amount over the rows of one (year, month) group (groupby sum,
NaN amounts skipped). -/
def groupSumYM (l : List Expense) (k : Nat × Nat) : ℚ :=
  ((l.filter (fun r => decide (monthKey r = k))).filterMap (fun r => r.amount)).sum

/-- The distinct (year, month) keys of the filtered rows, in the ascending
group order of groupby. -/
def monthKeys (l : List Expense) : List (Nat × Nat) :=
  sortAsc pairLt ((l.map monthKey).dedup)

/-- summary_month (lines 226-227): one row per (year, month) group with the
summed amount and the derived period key. -/
def summaryMonth (l : List Expense) : List MonthRow :=
  (monthKeys l).map (fun k => ⟨k.1, k.2, groupSumYM l k, periodOfYM k.1 k.2⟩)

/-- A row of the company summary after the left merge with companies
(lines 228-231).  A group whose company_id matches no company keeps a
missing name. -/
structure CompanyRow where
  company_id : Nat
  amount : ℚ
  name : Option String
deriving DecidableEq

/-- The distinct company_id group keys of the filtered rows, ascending.
groupby(company_id) drops rows whose key is missing (dropna default). -/
def companyKeys (l : List Expense) : List Nat :=
  sortAsc (fun a b => decide (a < b)) ((l.filterMap (fun r => r.company_id)).dedup)

/-- Sum of amount over the rows of one company_id group. -/
def companyGroupSum (l : List Expense) (cid : Nat) : ℚ :=
  ((l.filter (fun r => decide (r.company_id = some cid))).filterMap
    (fun r => r.amount)).sum

/-- The left merge of one summed group with companies[[id, name]]: no match
keeps the group with a missing name; each match contributes a row. -/
def mergeName (cs : List Company) (cid : Nat) (a : ℚ) : List CompanyRow :=
  match cs.filter (fun c => decide (c.id = cid)) with
  | [] => [⟨cid, a, none⟩]
  | ms => ms.map (fun c => ⟨cid, a, some c.name⟩)

/-- The company summary before sorting: groupby(company_id) output order
(keys ascending), merged with companies. -/
def summaryCompanyUnsorted (l : List Expense) (cs : List Company) : List CompanyRow :=
  (companyKeys l).flatMap (fun cid => mergeName cs cid (companyGroupSum l cid))

/-- Strict order on company rows by summed amount. -/
def rowLt (a b : CompanyRow) : Bool :=
  decide (a.amount < b.amount)

/-- summary_company after sort_values(amount, ascending=False) (line 231).
pandas nargsort computes the ascending argsort and reverses the whole
indexer for a descending sort, so the result is the reverse of the
ascending order; in particular tied rows come out in reversed group
order, not in original group order.  The ascending argsort is modelled
with a stable insertion sort, which is what numpy runs on arrays of at
most 16 elements; for larger summaries the default quicksort kind is
unstable, the real tie order is implementation defined, and this model
agrees with the program only up to the permutation of tied rows - no
theorem asserts the tie order there. -/
def summaryCompany (l : List Expense) (cs : List Company) : List CompanyRow :=
  (sortAsc rowLt (summaryCompanyUnsorted l cs)).reverse

/-- A row of the chart merge of summary_month with sales (line 241). -/
structure MergedRow where
  year : Nat
  month : Nat
  amount_expenses : ℚ
  period : String
  amount_sales : Option ℚ
deriving DecidableEq

/-- The period key computed on a sales row (line 240). -/
def salePeriod (s : Sale) : String :=
  periodOfYM s.year s.month

/-- The sales join (lines 238-241).  The period column is only added to the
sales copy when it is non-empty, yet sales_summary[[period, amount]] is
selected unconditionally: on an empty sales table the selection raises
KeyError, modelled as none.  On a non-empty table this is a left merge of
summary_month with sales on period, in summary_month order. -/
def salesJoin (sm : List MonthRow) (sales : List Sale) : Option (List MergedRow) :=
  match sales with
  | [] => none
  | _ :: _ =>
    some (sm.flatMap (fun r =>
      match sales.filter (fun s => decide (salePeriod s = r.period)) with
      | [] => [⟨r.year, r.month, r.amount, r.period, none⟩]
      | ms => ms.map (fun s => ⟨r.year, r.month, r.amount, r.period, some s.amount⟩)))

/-- The composite conflict key of a sales row. -/
def saleKey (s : Sale) : Nat × Nat :=
  (s.month, s.year)

/-- upsert_sales (lines 105-117): INSERT ... ON CONFLICT (month, year)
DO UPDATE SET amount = EXCLUDED.amount.  On a key conflict the existing
row keeps its position and gets the new amount; otherwise the row is
appended. -/
def upsertSale (m y : Nat) (a : ℚ) (t : List Sale) : List Sale :=
  if t.any (fun s => decide (saleKey s = (m, y))) then
    t.map (fun s => if decide (saleKey s = (m, y)) then { s with amount := a } else s)
  else t ++ [⟨m, y, a⟩]

/-- A sequence of upserts applied in order. -/
def applyUpserts (ops : List (Nat × Nat × ℚ)) (t : List Sale) : List Sale :=
  ops.foldl (fun acc op => upsertSale op.1 op.2.1 op.2.2 acc) t

/-- The database uniqueness constraint on sales: at most one row per
(month, year). -/
def UniqueSaleKeys (t : List Sale) : Prop :=
  (t.map saleKey).Nodup

/-- The three loaded tables. -/
structure Tables where
  expenses : List Expense
  companies : List Company
  sales : List Sale
deriving DecidableEq

/-- Everything the pipeline produces for the presentation layer. -/
structure PipelineOutput where
  filtered : List Expense
  total_spent : ℚ
  unpaid_total : ℚ
  summary_month : List MonthRow
  summary_company : List CompanyRow
  merged : Option (List MergedRow)

/-- The whole pipeline of main (lines 187-241) with explicit state passing
of the three loaded tables.  filtered starts as a copy of expenses
(line 187), every filter step rebinds the local filtered frame, the period
column writes on lines 227 and 240 target summary_month and the local copy
of sales; no step writes through to a loaded table, so the final state is
the input state.  merged is none both when summary_month is empty (the
chart branch is skipped) and when the join raises. -/
def runPipeline (sd ed : Nat) (term cname sname : String) (t : Tables) :
    Tables × Option PipelineOutput :=
  let expensesVar := t.expenses
  let companiesVar := t.companies
  let salesVar := t.sales
  let filtered0 := expensesVar
  let res :=
    match runSteps (canonicalSteps sd ed term companiesVar cname sname) filtered0 with
    | none => none
    | some filtered =>
      let sm := summaryMonth filtered
      some { filtered := filtered
             total_spent := totalSpent filtered
             unpaid_total := unpaidTotal filtered
             summary_month := sm
             summary_company := summaryCompany filtered companiesVar
             merged := if sm.isEmpty then none else salesJoin sm salesVar }
  (⟨expensesVar, companiesVar, salesVar⟩, res)

/-! Helper lemmas. -/

theorem option_bind_assoc {α : Type} (o : Option α) (f g : α → Option α) :
    (o.bind f).bind g = o.bind (fun x => (f x).bind g) := by
  cases o <;> rfl

theorem insertAsc_perm {α : Type} (lt : α → α → Bool) (x : α) (l : List α) :
    (insertAsc lt x l).Perm (x :: l) := by
  induction l with
  | nil => exact List.Perm.refl _
  | cons y ys ih =>
    by_cases h : lt y x
    · simp only [insertAsc, h, if_true]
      exact (ih.cons y).trans (List.Perm.swap x y ys)
    · simp only [insertAsc, h, if_false]
      exact List.Perm.refl _

theorem sortAsc_perm {α : Type} (lt : α → α → Bool) (l : List α) :
    (sortAsc lt l).Perm l := by
  induction l with
  | nil => exact List.Perm.refl _
  | cons x xs ih => exact (insertAsc_perm lt x (sortAsc lt xs)).trans (ih.cons x)

/-- A filter keyed on a column whose values are pairwise distinct returns at
most one row.  This is the shape behind the sales key, the company id and
the sale period lookups. -/
theorem filter_single_of_nodup_map {α K : Type} [DecidableEq K] (key : α → K)
    (k : K) (l : List α) (hnd : (l.map key).Nodup) :
    l.filter (fun x => decide (key x = k)) = [] ∨
    ∃ x, l.filter (fun x => decide (key x = k)) = [x] ∧ key x = k := by
  cases hf : l.filter (fun x => decide (key x = k)) with
  | nil => exact Or.inl rfl
  | cons x rest =>
    have hsub : ((x :: rest).map key).Sublist (l.map key) := by
      rw [← hf]; exact (List.filter_sublist l).map key
    have hnd2 : ((x :: rest).map key).Nodup := hsub.nodup hnd
    have hmem : ∀ z ∈ x :: rest, key z = k := by
      intro z hz
      have : z ∈ l.filter (fun x => decide (key x = k)) := by rw [hf]; exact hz
      simpa using (List.of_mem_filter this)
    have hrest : rest = [] := by
      cases hrest : rest with
      | nil => rfl
      | cons z zs =>
        exfalso
        have hkz : key z = k := hmem z (by simp [hrest])
        have hkx : key x = k := hmem x (by simp)
        have : key x ∈ rest.map key := by
          rw [hrest]; simp [hkx, hkz.symm]
        simp only [List.map_cons, List.nodup_cons] at hnd2
        exact hnd2.1 this
    subst hrest
    exact Or.inr ⟨x, rfl, hmem x (by simp)⟩

/-- Splitting the skipna sum of amounts along a Boolean predicate. -/
theorem sum_amount_split (p : Expense → Bool) (l : List Expense) :
    ((l.filter p).filterMap (fun r => r.amount)).sum +
      ((l.filter (fun r => !(p r))).filterMap (fun r => r.amount)).sum =
    (l.filterMap (fun r => r.amount)).sum := by
  induction l with
  | nil => simp
  | cons x xs ih =>
    cases hp : p x <;> cases hx : x.amount <;>
      simp [List.filter_cons, hp, hx, List.filterMap_cons] <;>
      linarith [ih]

/-- Grouping is total preserving: summing the per group sums over a
duplicate free, covering key list gives the overall sum. -/
theorem sum_amount_partition {K : Type} [DecidableEq K] (keyf : Expense → K) :
    ∀ (ks : List K) (l : List Expense), ks.Nodup → (∀ r ∈ l, keyf r ∈ ks) →
      (ks.map (fun k =>
        ((l.filter (fun r => decide (keyf r = k))).filterMap (fun r => r.amount)).sum)).sum =
      (l.filterMap (fun r => r.amount)).sum := by
  intro ks
  induction ks with
  | nil =>
    intro l _ hcov
    have : l = [] := by
      cases l with
      | nil => rfl
      | cons r rs => exact absurd (hcov r (by simp)) (by simp)
    subst this; simp
  | cons k ks ih =>
    intro l hnd hcov
    have hsplit := sum_amount_split (fun r => decide (keyf r = k)) l
    set l2 := l.filter (fun r => !(decide (keyf r = k))) with hl2
    have hcov2 : ∀ r ∈ l2, keyf r ∈ ks := by
      intro r hr
      have hmem := List.mem_of_mem_filter hr
      have hne : ¬ keyf r = k := by
        have := List.of_mem_filter hr
        simpa using this
      rcases List.mem_cons.mp (hcov r hmem) with h | h
      · exact absurd h hne
      · exact h
    have hnd2 : ks.Nodup := (List.nodup_cons.mp hnd).2
    have hknotin : k ∉ ks := (List.nodup_cons.mp hnd).1
    have hsame : ∀ k2 ∈ ks,
        l.filter (fun r => decide (keyf r = k2)) = l2.filter (fun r => decide (keyf r = k2)) := by
      intro k2 hk2
      rw [hl2, List.filter_filter]
      apply List.filter_congr
      have hne2 : ¬ k2 = k := fun he => hknotin (he ▸ hk2)
      intro r _
      by_cases h : keyf r = k2
      · have hne : ¬ keyf r = k := by
          intro hk
          exact hknotin (by rw [hk.symm.trans h]; exact hk2)
        simp [h, hne, hne2]
      · simp [h]
    rw [List.map_cons, List.sum_cons]
    have hmapeq :
        ks.map (fun k2 =>
          ((l.filter (fun r => decide (keyf r = k2))).filterMap (fun r => r.amount)).sum) =
        ks.map (fun k2 =>
          ((l2.filter (fun r => decide (keyf r = k2))).filterMap (fun r => r.amount)).sum) := by
      apply List.map_congr_left
      intro k2 hk2
      rw [hsame k2 hk2]
    rw [hmapeq, ih l2 hnd2 hcov2]
    exact hsplit

/-! Concrete rows used as inputs of witnesses and counterexamples. -/

/-- An expense whose amount failed numeric parsing: amount is missing. -/
def rowMissingAmount : Expense :=
  ⟨1, some "E1", none, some "x", none, some "لم يتم", some 10, 1, 2024⟩

/-- An expense of company 1 over 5. -/
def rowA : Expense :=
  ⟨1, some "E1", some 5, some "5", some 1, some "تم الصرف", some 10, 1, 2024⟩

/-- An expense of company 2, also over 5 (ties with rowA). -/
def rowB : Expense :=
  ⟨2, some "E2", some 5, some "5", some 2, some "لم يتم", some 11, 1, 2024⟩

/-- An expense with no company: company_id is missing. -/
def rowOrphan : Expense :=
  ⟨3, some "E3", some 5, some "5", none, some "لم يتم", some 12, 1, 2024⟩

/-! C1 - company filter on a name with no match. -/

/-- C1 counterexample: with Company table [(1, A)] and selected company
name B, the company filter raises (IndexError from iloc[0] on an empty
selection, modelled as none); it does not yield the empty result set the
claim promises. -/
theorem company_filter_miss_counterexample :
    applyStep (FilterStep.company [⟨1, "A"⟩] "B") [rowA] = none ∧
    applyStep (FilterStep.company [⟨1, "A"⟩] "B") [rowA] ≠ some [] := by
  decide

/-- C1 amended: for every Company table and every selected company name
other than the all sentinel that matches no company row, the company
filter fails with an error (the id lookup raises) instead of returning a
result set. -/
theorem company_filter_miss_raises (cs : List Company) (cname : String)
    (l : List Expense) (hs : cname ≠ allSentinel)
    (hmiss : ∀ c ∈ cs, c.name ≠ cname) :
    applyStep (FilterStep.company cs cname) l = none := by
  have hfil : cs.filter (fun c => decide (c.name = cname)) = [] :=
    List.filter_eq_nil_iff.mpr (by intro c hc; simpa using hmiss c hc)
  simp [applyStep, hs, hfil]

theorem company_filter_miss_raises_witness :
    applyStep (FilterStep.company [⟨1, "A"⟩] "X") [rowA] = none :=
  company_filter_miss_raises [⟨1, "A"⟩] "X" [rowA] (by decide) (by decide)

/-! C2 - the search filter on rows with missing values. -/

/-- C2: a row whose amount is missing is kept by the search for the term
nan, although the term occurs in neither of its present text fields: the
code stringifies the column with astype(str) before matching, which turns
NaN into the literal string nan, so the na=False argument of str.contains
never sees a missing value.  The claim (and the intent expressed by
na=False in the source) says a missing value never matches. -/
theorem search_missing_amount_matches :
    rowMissingAmount.amount = none ∧
    strContainsCI (optStr rowMissingAmount.expense_number) "nan" = false ∧
    strContainsCI (optStr rowMissingAmount.amount_raw) "nan" = false ∧
    applyStep (FilterStep.search "nan") [rowMissingAmount] = some [rowMissingAmount] := by
  decide

/-! C9 - the pipeline never mutates the loaded tables. -/

/-- C9: the pipeline is a pure function of the loaded tables; after
computing the filtered view, the totals, both summaries and the sales
join, the three loaded tables are unchanged (filtering operates on a
copy of the expense table, and the period column writes land on
summary_month and on the local copy of sales). -/
theorem pipeline_preserves_tables (sd ed : Nat) (term cname sname : String)
    (t : Tables) :
    (runPipeline sd ed term cname sname t).1 = t :=
  rfl

/-! C10 - the sales join on an empty Sale table. -/

/-- C10: when the loaded Sale table is empty, the sales join step fails
(the period column was never added to the empty sales copy, and selecting
sales_summary[[period, amount]] raises KeyError, modelled as none)
instead of returning the monthly summary with every sales value
missing. -/
theorem sales_join_empty_sales_errors (sm : List MonthRow) :
    salesJoin sm [] = none :=
  rfl

/-! C8 - the sale upsert. -/

theorem upsertSale_uniqueKeys (m y : Nat) (a : ℚ) (t : List Sale)
    (h : UniqueSaleKeys t) : UniqueSaleKeys (upsertSale m y a t) := by
  unfold upsertSale
  by_cases hany : t.any (fun s => decide (saleKey s = (m, y))) = true
  · rw [if_pos hany]
    unfold UniqueSaleKeys at h ⊢
    have hkeys :
        (t.map (fun s => if decide (saleKey s = (m, y)) then { s with amount := a } else s)).map
          saleKey = t.map saleKey := by
      rw [List.map_map]
      apply List.map_congr_left
      intro s _
      by_cases hk : saleKey s = (m, y)
      · have hm : s.month = m := congrArg Prod.fst hk
        have hy : s.year = y := congrArg Prod.snd hk
        simp [saleKey, hm, hy]
      · have hnk : ¬ (s.month = m ∧ s.year = y) := by
          intro hc
          exact hk (by simp [saleKey, hc.1, hc.2])
        simp [saleKey, hnk]
    rw [hkeys]
    exact h
  · rw [if_neg hany]
    unfold UniqueSaleKeys at h ⊢
    rw [List.map_append, List.nodup_append]
    refine ⟨h, List.nodup_singleton _, ?_⟩
    intro kk hk1 hk2
    simp only [List.any_eq_true, decide_eq_true_eq, not_exists] at hany
    have hkk : kk = (m, y) := by simpa [saleKey] using hk2
    rcases List.mem_map.mp hk1 with ⟨s, hs, hks⟩
    exact hany s ⟨hs, hks.trans hkk⟩

theorem upsertSale_filter (m y : Nat) (a : ℚ) (t : List Sale)
    (h : UniqueSaleKeys t) :
    (upsertSale m y a t).filter (fun s => decide (saleKey s = (m, y))) = [⟨m, y, a⟩] := by
  unfold upsertSale
  by_cases hany : t.any (fun s => decide (saleKey s = (m, y))) = true
  · rw [if_pos hany, List.filter_map]
    have hcomp :
        ((fun s => decide (saleKey s = (m, y))) ∘
          (fun s => if decide (saleKey s = (m, y)) then { s with amount := a } else s)) =
        fun s => decide (saleKey s = (m, y)) := by
      funext s
      by_cases hk : saleKey s = (m, y)
      · have hm : s.month = m := congrArg Prod.fst hk
        have hy : s.year = y := congrArg Prod.snd hk
        simp [saleKey, hm, hy]
      · have hnk : ¬ (s.month = m ∧ s.year = y) := by
          intro hc
          exact hk (by simp [saleKey, hc.1, hc.2])
        simp [saleKey, hnk]
        exact fun hm hy => hnk ⟨hm, hy⟩
    rw [hcomp]
    rcases filter_single_of_nodup_map saleKey (m, y) t h with hnil | ⟨x, hx, hkx⟩
    · exfalso
      rcases List.any_eq_true.mp hany with ⟨s, hs, hps⟩
      have : s ∈ t.filter (fun s => decide (saleKey s = (m, y))) :=
        List.mem_filter.mpr ⟨hs, hps⟩
      rw [hnil] at this
      exact absurd this (List.not_mem_nil s)
    · rw [hx]
      have hm : x.month = m := congrArg Prod.fst hkx
      have hy : x.year = y := congrArg Prod.snd hkx
      simp [saleKey, hm, hy]
  · rw [if_neg hany, List.filter_append]
    have h1 : t.filter (fun s => decide (saleKey s = (m, y))) = [] := by
      apply List.filter_eq_nil_iff.mpr
      intro s hs
      simp only [List.any_eq_true, decide_eq_true_eq, not_exists] at hany
      simpa using fun hps => hany s ⟨hs, hps⟩
    rw [h1]
    simp [saleKey]

theorem applyUpserts_uniqueKeys (ops : List (Nat × Nat × ℚ)) (t : List Sale)
    (h : UniqueSaleKeys t) : UniqueSaleKeys (applyUpserts ops t) := by
  induction ops generalizing t with
  | nil => exact h
  | cons op ops ih => exact ih _ (upsertSale_uniqueKeys op.1 op.2.1 op.2.2 t h)

/-- C8: starting from any sales table satisfying the database key
constraint, any sequence of upserts keeps at most one row per
(month, year); and after two upserts with the same key and different
amounts, exactly one row holds that key, carrying the amount of the later
upsert. -/
theorem sale_upserts_unique_and_replace (ops : List (Nat × Nat × ℚ))
    (t : List Sale) (m y : Nat) (a1 a2 : ℚ) (h : UniqueSaleKeys t)
    (_hne : a1 ≠ a2) :
    UniqueSaleKeys (applyUpserts ops t) ∧
    (upsertSale m y a2 (upsertSale m y a1 t)).filter
      (fun s => decide (saleKey s = (m, y))) = [⟨m, y, a2⟩] :=
  ⟨applyUpserts_uniqueKeys ops t h,
   upsertSale_filter m y a2 _ (upsertSale_uniqueKeys m y a1 t h)⟩

theorem sale_upserts_unique_and_replace_witness :
    UniqueSaleKeys (applyUpserts [(2, 2025, 7)] [⟨1, 2024, 9⟩]) ∧
    (upsertSale 1 2024 4 (upsertSale 1 2024 3 [⟨1, 2024, 9⟩])).filter
      (fun s => decide (saleKey s = (1, 2024))) = [⟨1, 2024, 4⟩] :=
  sale_upserts_unique_and_replace [(2, 2025, 7)] [⟨1, 2024, 9⟩] 1 2024 3 4
    (by unfold UniqueSaleKeys saleKey; decide) (by decide)

/-! C7 - the four filters commute. -/

/-- Every filter step either filters by a row predicate or fails on every
input (the company step with a missed name lookup). -/
def StepOK (f : List Expense → Option (List Expense)) : Prop :=
  (∃ p, ∀ l, f l = some (l.filter p)) ∨ (∀ l, f l = none)

theorem applyStep_ok (st : FilterStep) : StepOK (applyStep st) := by
  cases st with
  | dateRange sd ed => exact Or.inl ⟨dateOK sd ed, fun l => rfl⟩
  | search term =>
    by_cases h : term = ""
    · exact Or.inl ⟨fun _ => true, fun l => by simp [applyStep, h]⟩
    · exact Or.inl ⟨matchesSearch term, fun l => by simp [applyStep, h]⟩
  | company cs cname =>
    by_cases h : cname = allSentinel
    · exact Or.inl ⟨fun _ => true, fun l => by simp [applyStep, h]⟩
    · cases hf : cs.filter (fun c => decide (c.name = cname)) with
      | nil => exact Or.inr (fun l => by simp [applyStep, h, hf])
      | cons c cs2 =>
        exact Or.inl ⟨fun r => decide (r.company_id = some c.id),
          fun l => by simp [applyStep, h, hf]⟩
  | status sname =>
    by_cases h : sname = allSentinel
    · exact Or.inl ⟨fun _ => true, fun l => by simp [applyStep, h]⟩
    · exact Or.inl ⟨fun r => decide (r.status = some sname), fun l => by simp [applyStep, h]⟩

theorem stepOK_comm {f g : List Expense → Option (List Expense)}
    (hf : StepOK f) (hg : StepOK g) (l : List Expense) :
    (f l).bind g = (g l).bind f := by
  rcases hf with ⟨p, hp⟩ | hp <;> rcases hg with ⟨q, hq⟩ | hq
  · rw [hp l, hq l]
    show g (l.filter p) = f (l.filter q)
    rw [hp, hq, List.filter_filter, List.filter_filter]
    refine congrArg some (List.filter_congr ?_)
    intro r _
    exact Bool.and_comm (q r) (p r)
  · rw [hp l, hq l]
    show g (l.filter p) = none
    exact hq _
  · rw [hp l, hq l]
    show none = f (l.filter q)
    exact (hp _).symm
  · rw [hp l, hq l]
    rfl

theorem runSteps_perm {s1 s2 : List FilterStep} (h : s1.Perm s2) :
    ∀ l : List Expense, runSteps s1 l = runSteps s2 l := by
  induction h with
  | nil => intro l; rfl
  | cons x _h ih =>
    intro l
    show (applyStep x l).bind (runSteps _) = (applyStep x l).bind (runSteps _)
    cases applyStep x l with
    | none => rfl
    | some l2 => exact ih l2
  | swap x y t =>
    intro l
    show (applyStep y l).bind (fun l2 => (applyStep x l2).bind (runSteps t)) =
      (applyStep x l).bind (fun l2 => (applyStep y l2).bind (runSteps t))
    rw [← option_bind_assoc, ← option_bind_assoc,
      stepOK_comm (applyStep_ok y) (applyStep_ok x) l]
  | trans _h1 _h2 ih1 ih2 =>
    intro l
    exact (ih1 l).trans (ih2 l)

/-- C7: applying the four filters in any order gives the same final result
as the canonical order date range, search, company, status; all four are
predicate narrowings (and the failing company lookup fails in every
order). -/
theorem filter_order_independent (sd ed : Nat) (term : String)
    (cs : List Company) (cname sname : String) (l : List Expense)
    (steps : List FilterStep)
    (hperm : steps.Perm (canonicalSteps sd ed term cs cname sname)) :
    runSteps steps l = runSteps (canonicalSteps sd ed term cs cname sname) l :=
  runSteps_perm hperm l

theorem filter_order_independent_witness :
    runSteps [FilterStep.status "الكل", FilterStep.company [⟨1, "A"⟩] "A",
      FilterStep.search "e", FilterStep.dateRange 0 20] [rowA, rowB] =
    runSteps (canonicalSteps 0 20 "e" [⟨1, "A"⟩] "A" "الكل") [rowA, rowB] :=
  filter_order_independent 0 20 "e" [⟨1, "A"⟩] "A" "الكل" [rowA, rowB] _ (by decide)

/-! C6 - the monthly summary is total preserving. -/

/-- C6: the monthly summary amounts (rows grouped by (year, month), amount
summed per group with missing amounts excluded) sum to exactly total_spent
of the filtered set. -/
theorem monthly_summary_total (l : List Expense) :
    ((summaryMonth l).map (fun r => r.amount)).sum = totalSpent l := by
  unfold summaryMonth totalSpent
  rw [List.map_map]
  have hnd : (monthKeys l).Nodup :=
    ((sortAsc_perm pairLt _).nodup_iff).mpr (List.nodup_dedup _)
  have hcov : ∀ r ∈ l, monthKey r ∈ monthKeys l := by
    intro r hr
    exact ((sortAsc_perm pairLt _).mem_iff).mpr
      (List.mem_dedup.mpr (List.mem_map_of_mem monthKey hr))
  have hpart := sum_amount_partition monthKey (monthKeys l) l hnd hcov
  simpa [Function.comp, groupSumYM] using hpart

/-! C3, C4 - the company summary. -/

/-- The amounts that groupby(company_id) silently drops: rows whose
company_id is missing. -/
def missingCompanyTotal (l : List Expense) : ℚ :=
  ((l.filter (fun r => decide (r.company_id = none))).filterMap (fun r => r.amount)).sum

theorem mergeName_single (cs : List Company)
    (hnd : (cs.map (fun c => c.id)).Nodup) (cid : Nat) (a : ℚ) :
    ∃ nm, mergeName cs cid a = [⟨cid, a, nm⟩] := by
  unfold mergeName
  rcases filter_single_of_nodup_map (fun c => c.id) cid cs hnd with hnil | ⟨c, hc, _⟩
  · rw [hnil]
    exact ⟨none, rfl⟩
  · rw [hc]
    exact ⟨some c.name, rfl⟩

theorem flatMap_mergeName (cs : List Company)
    (hnd : (cs.map (fun c => c.id)).Nodup) (l : List Expense) :
    ∀ ks : List Nat,
      ((ks.flatMap (fun cid => mergeName cs cid (companyGroupSum l cid))).map
        (fun r => r.company_id) = ks) ∧
      ((ks.flatMap (fun cid => mergeName cs cid (companyGroupSum l cid))).map
        (fun r => r.amount) = ks.map (fun cid => companyGroupSum l cid)) := by
  intro ks
  induction ks with
  | nil => simp
  | cons k ks ih =>
    rcases mergeName_single cs hnd k (companyGroupSum l k) with ⟨nm, hm⟩
    simp [List.flatMap_cons, hm, ih.1, ih.2]

theorem company_groups_total (l : List Expense) :
    ((companyKeys l).map (fun cid => companyGroupSum l cid)).sum +
      missingCompanyTotal l = totalSpent l := by
  have hnd : (companyKeys l).Nodup :=
    ((sortAsc_perm _ _).nodup_iff).mpr (List.nodup_dedup _)
  have hndo : (none :: (companyKeys l).map some : List (Option Nat)).Nodup := by
    rw [List.nodup_cons]
    refine ⟨by simp, hnd.map ?_⟩
    intro a b hab
    exact Option.some.inj hab
  have hcov : ∀ r ∈ l, r.company_id ∈ none :: (companyKeys l).map some := by
    intro r hr
    cases hc : r.company_id with
    | none => simp
    | some c =>
      have hmem : c ∈ companyKeys l := by
        apply ((sortAsc_perm _ _).mem_iff).mpr
        apply List.mem_dedup.mpr
        exact List.mem_filterMap.mpr ⟨r, hr, hc⟩
      simp [hmem]
  have hpart := sum_amount_partition (fun r => r.company_id)
    (none :: (companyKeys l).map some) l hndo hcov
  rw [List.map_cons, List.sum_cons, List.map_map] at hpart
  rw [add_comm]
  exact hpart

/-- C4 counterexample: a filtered set holding one expense over 5 with a
missing company_id.  Its company summary is empty, so the summed company
summary amounts are 0 while total_spent is 5. -/
theorem company_total_counterexample :
    ((summaryCompany [rowOrphan] []).map (fun r => r.amount)).sum ≠
      totalSpent [rowOrphan] := by
  norm_num [summaryCompany, summaryCompanyUnsorted, companyKeys, rowOrphan,
    totalSpent, sortAsc, List.dedup_nil, List.filterMap_cons, List.sum_cons,
    List.sum_nil]

/-- C4 amended: the company summary amounts sum to total_spent minus the
amounts of filtered rows whose company_id is missing (those rows are
dropped by groupby(company_id) but still counted in total_spent); the two
agree exactly when every filtered row has a company_id.  Company ids are
assumed unique, as the database guarantees. -/
theorem company_summary_total (l : List Expense) (cs : List Company)
    (hnd : (cs.map (fun c => c.id)).Nodup) :
    ((summaryCompany l cs).map (fun r => r.amount)).sum +
      missingCompanyTotal l = totalSpent l := by
  have hperm : (summaryCompany l cs).Perm (summaryCompanyUnsorted l cs) :=
    (List.reverse_perm _).trans (sortAsc_perm _ _)
  have hsum : ((summaryCompany l cs).map (fun r => r.amount)).sum =
      ((summaryCompanyUnsorted l cs).map (fun r => r.amount)).sum :=
    (hperm.map _).sum_eq
  rw [hsum]
  unfold summaryCompanyUnsorted
  rw [(flatMap_mergeName cs hnd l (companyKeys l)).2]
  exact company_groups_total l

theorem company_summary_total_witness :
    ((summaryCompany [rowA, rowOrphan] [⟨1, "A"⟩]).map (fun r => r.amount)).sum +
      missingCompanyTotal [rowA, rowOrphan] = totalSpent [rowA, rowOrphan] :=
  company_summary_total [rowA, rowOrphan] [⟨1, "A"⟩] (by decide)

theorem mem_insertAsc {α : Type} (lt : α → α → Bool) (x z : α) (s : List α) :
    z ∈ insertAsc lt x s ↔ z = x ∨ z ∈ s := by
  rw [(insertAsc_perm lt x s).mem_iff]
  simp

/-- Inserting into an ascending sorted list keeps it sorted, and ties keep
the order of the reference list: the inserted element goes after every
element already placed that compares equal to it. -/
theorem insertAsc_pairwise {α β : Type} [LinearOrder β] (f : α → β) (x : α)
    (l : List α) :
    ∀ s : List α,
      s.Pairwise (fun a b => f a ≤ f b ∧ (f a = f b → [a, b].Sublist l)) →
      (∀ z ∈ s, z ∈ l) →
      (insertAsc (fun a b => decide (f a < f b)) x s).Pairwise
        (fun a b => f a ≤ f b ∧ (f a = f b → [a, b].Sublist (x :: l))) := by
  intro s
  induction s with
  | nil =>
    intro _ _
    simp [insertAsc]
  | cons y ys ih =>
    intro hp hmem
    rw [List.pairwise_cons] at hp
    obtain ⟨hy, hys⟩ := hp
    by_cases h : f y < f x
    · have heq : insertAsc (fun a b => decide (f a < f b)) x (y :: ys) =
          y :: insertAsc (fun a b => decide (f a < f b)) x ys := by
        simp [insertAsc, h]
      rw [heq, List.pairwise_cons]
      constructor
      · intro z hz
        rcases (mem_insertAsc _ x z ys).mp hz with rfl | hzys
        · exact ⟨le_of_lt h, fun he => absurd he (ne_of_lt h)⟩
        · obtain ⟨h1, h2⟩ := hy z hzys
          exact ⟨h1, fun he => (h2 he).cons x⟩
      · exact ih hys (fun z hz => hmem z (List.mem_cons_of_mem y hz))
    · have hxy : f x ≤ f y := not_lt.mp h
      have heq : insertAsc (fun a b => decide (f a < f b)) x (y :: ys) =
          x :: y :: ys := by
        simp [insertAsc, h]
      rw [heq, List.pairwise_cons]
      constructor
      · intro z hz
        have hzl : z ∈ l := hmem z hz
        have hxz : f x ≤ f z := by
          rcases List.mem_cons.mp hz with rfl | hzys
          · exact hxy
          · exact hxy.trans (hy z hzys).1
        exact ⟨hxz, fun _ => (List.singleton_sublist.mpr hzl).cons₂ x⟩
      · rw [List.pairwise_cons]
        constructor
        · intro z hz
          obtain ⟨h1, h2⟩ := hy z hz
          exact ⟨h1, fun he => (h2 he).cons x⟩
        · exact hys.imp (fun hab => ⟨hab.1, fun he => (hab.2 he).cons x⟩)

/-- The stable ascending sort is sorted by the key, and tied elements stay
in the order of the input list. -/
theorem sortAsc_pairwise {α β : Type} [LinearOrder β] (f : α → β) :
    ∀ l : List α,
      (sortAsc (fun a b => decide (f a < f b)) l).Pairwise
        (fun a b => f a ≤ f b ∧ (f a = f b → [a, b].Sublist l))
  | [] => List.Pairwise.nil
  | x :: xs =>
    insertAsc_pairwise f x xs (sortAsc (fun a b => decide (f a < f b)) xs)
      (sortAsc_pairwise f xs)
      (fun _ hz => ((sortAsc_perm _ xs).mem_iff).mp hz)

/-- C3 counterexample: two companies whose summed amounts tie at 5.  The
original group order (groupby ascending on company_id) is [1, 2]; a stable
descending sort would output [1, 2], but the code outputs [2, 1] because
pandas reverses the ascending order for a descending sort. -/
theorem company_sort_tie_counterexample :
    ((summaryCompanyUnsorted [rowA, rowB] [⟨1, "A"⟩, ⟨2, "B"⟩]).map
      (fun r => r.company_id) = [1, 2]) ∧
    ((summaryCompany [rowA, rowB] [⟨1, "A"⟩, ⟨2, "B"⟩]).map
      (fun r => r.company_id) = [2, 1]) ∧
    ((summaryCompany [rowA, rowB] [⟨1, "A"⟩, ⟨2, "B"⟩]).map
      (fun r => r.amount) = [5, 5]) := by
  norm_num [summaryCompany, summaryCompanyUnsorted, companyKeys, rowA, rowB,
    sortAsc, insertAsc, rowLt, mergeName, companyGroupSum, List.dedup_nil,
    List.dedup_cons_of_not_mem, List.filterMap_cons, List.sum_cons,
    List.sum_nil, List.flatMap_cons]

/-- C3 amended: the company summary groups the filtered rows by company_id
(group keys ascending), left joins every group to the Company table (an
unmatched id keeps its group with a missing name rather than being
dropped), and sorts descending by summed amount.  Ties are NOT broken by
the original group order: pandas reverses the ascending argsort for a
descending sort, so in the regime where that argsort is stable - numpy
runs plain insertion sort on arrays of at most 16 elements - tied groups
come out in the REVERSE of the original group order; for summaries with
more than 16 groups the default quicksort kind is unstable, the tie
order is implementation defined, and nothing is asserted about it.  The
grouping, join, permutation and descending-sortedness facts hold for any
sort kind and carry no size bound. -/
theorem company_summary_sorted (l : List Expense) (cs : List Company)
    (hnd : (cs.map (fun c => c.id)).Nodup) :
    ((summaryCompanyUnsorted l cs).map (fun r => r.company_id) = companyKeys l) ∧
    (summaryCompany l cs).Perm (summaryCompanyUnsorted l cs) ∧
    (summaryCompany l cs).Pairwise (fun a b => b.amount ≤ a.amount) ∧
    ((summaryCompanyUnsorted l cs).length ≤ 16 →
      (summaryCompany l cs).Pairwise (fun a b =>
        b.amount = a.amount → [b, a].Sublist (summaryCompanyUnsorted l cs))) := by
  have h := sortAsc_pairwise (fun r : CompanyRow => r.amount) (summaryCompanyUnsorted l cs)
  refine ⟨(flatMap_mergeName cs hnd l (companyKeys l)).1,
    (List.reverse_perm _).trans (sortAsc_perm _ _), ?_, fun _ => ?_⟩
  · unfold summaryCompany
    rw [List.pairwise_reverse]
    exact h.imp (fun hab => hab.1)
  · unfold summaryCompany
    rw [List.pairwise_reverse]
    exact h.imp (fun hab => hab.2)

theorem company_summary_sorted_witness :
    ((summaryCompanyUnsorted [rowA, rowB] [⟨1, "A"⟩, ⟨2, "B"⟩]).map
      (fun r => r.company_id) = companyKeys [rowA, rowB]) ∧
    (summaryCompany [rowA, rowB] [⟨1, "A"⟩, ⟨2, "B"⟩]).Perm
      (summaryCompanyUnsorted [rowA, rowB] [⟨1, "A"⟩, ⟨2, "B"⟩]) ∧
    (summaryCompany [rowA, rowB] [⟨1, "A"⟩, ⟨2, "B"⟩]).Pairwise
      (fun a b => b.amount ≤ a.amount) ∧
    ((summaryCompanyUnsorted [rowA, rowB] [⟨1, "A"⟩, ⟨2, "B"⟩]).length ≤ 16 →
      (summaryCompany [rowA, rowB] [⟨1, "A"⟩, ⟨2, "B"⟩]).Pairwise (fun a b =>
        b.amount = a.amount →
          [b, a].Sublist (summaryCompanyUnsorted [rowA, rowB] [⟨1, "A"⟩, ⟨2, "B"⟩]))) :=
  company_summary_sorted [rowA, rowB] [⟨1, "A"⟩, ⟨2, "B"⟩] (by decide)

/-! C5 - the sales join. -/

/-- C5: on a non-empty Sale table whose period keys are pairwise distinct
(the database guarantees one row per (month, year)), the sales join is
exactly the left join of the monthly summary with sales on period: one
output row per monthly summary row, in the order of the monthly summary,
carrying the matching sale amount, or a missing value when no sale row
has that period - including when no period matches at all.  The join is a
pure function of its two inputs. -/
theorem sales_join_left (sm : List MonthRow) (sales : List Sale)
    (hne : sales ≠ []) (hnd : (sales.map salePeriod).Nodup) :
    salesJoin sm sales = some (sm.map (fun r =>
      ⟨r.year, r.month, r.amount, r.period,
        ((sales.filter (fun s => decide (salePeriod s = r.period))).head?).map
          (fun s => s.amount)⟩)) := by
  cases sales with
  | nil => exact absurd rfl hne
  | cons s0 ss =>
    have hflat : ∀ rs : List MonthRow,
        (rs.flatMap (fun r =>
          match (s0 :: ss).filter (fun s => decide (salePeriod s = r.period)) with
          | [] => [(⟨r.year, r.month, r.amount, r.period, none⟩ : MergedRow)]
          | ms => ms.map (fun s => ⟨r.year, r.month, r.amount, r.period, some s.amount⟩))) =
        rs.map (fun r =>
          (⟨r.year, r.month, r.amount, r.period,
            (((s0 :: ss).filter (fun s => decide (salePeriod s = r.period))).head?).map
              (fun s => s.amount)⟩ : MergedRow)) := by
      intro rs
      induction rs with
      | nil => rfl
      | cons r rs ih =>
        rw [List.flatMap_cons, List.map_cons, ih]
        rcases filter_single_of_nodup_map salePeriod r.period (s0 :: ss) hnd with
          hnil | ⟨x, hx, _⟩
        · rw [hnil]
          rfl
        · rw [hx]
          rfl
    exact congrArg some (hflat sm)

/-- The monthly summary of the worked example in the specification. -/
def exampleSummary : List MonthRow :=
  [⟨2024, 1, 150, "2024-01"⟩, ⟨2024, 2, 75, "2024-02"⟩]

/-- A Sale table holding a row for 2024-01 only. -/
def exampleSales : List Sale :=
  [⟨1, 2024, 500⟩]

theorem sales_join_left_witness :
    salesJoin exampleSummary exampleSales =
      some [⟨2024, 1, 150, "2024-01", some 500⟩, ⟨2024, 2, 75, "2024-02", none⟩] := by
  rw [sales_join_left exampleSummary exampleSales (by decide) (by decide)]
  decide

end CafeDashboard
